import Mathlib

/-!
Verification of the Mamdani-style fuzzy inference engine in `src/app.js` of
the repository sistem-penilaian-prestasi.

The engine consists of two membership functions `muIPK` and `muAktif`, a fixed
9-rule base `rules`, a min/max inference loop, and a weighted-average
defuzzifier with centroid table `z = {rendah: 20, sedang: 50, tinggi: 80}`
(`hitungFuzzy`).  JavaScript numbers are modelled as rationals `ℚ`; every
decimal literal of the source (2.75, 0.75, 3.5, 0.5, …) is an exact rational,
so all arithmetic of the source on its in-domain values is represented
exactly.  `Math.min`/`Math.max` are `min`/`max` on `ℚ`, and the string
produced by `hasil.toFixed(2)` is modelled by the rational it denotes
(`roundTo2`, rounding half up, which agrees with `toFixed` on the
nonnegative scores produced here).
-/

/-- The three linguistic categories used for both inputs and the output
(rendah = low, sedang = medium, tinggi = high). -/
inductive Kategori where
  | rendah
  | sedang
  | tinggi
deriving DecidableEq, Repr

/-- A `{rendah, sedang, tinggi}` record of degrees, as produced by `muIPK` /
`muAktif` and used for the aggregated strengths `a` in `hitungFuzzy`. -/
structure MF where
  rendah : ℚ
  sedang : ℚ
  tinggi : ℚ
deriving DecidableEq, Repr

/-- Dynamic field read `m[k]` of the source. -/
def MF.get (m : MF) : Kategori → ℚ
  | .rendah => m.rendah
  | .sedang => m.sedang
  | .tinggi => m.tinggi

/-- Dynamic field write `m[k] = v` of the source. -/
def MF.set (m : MF) : Kategori → ℚ → MF
  | .rendah, v => { m with rendah := v }
  | .sedang, v => { m with sedang := v }
  | .tinggi, v => { m with tinggi := v }

/-- Source function `muIPK` (src/app.js lines 24–30): membership degrees of
a GPA value in the three fuzzy sets, by the conditional chains of the
source. -/
def muIPK (ipk : ℚ) : MF :=
  { rendah := if ipk ≤ 2 then 1 else if ipk < 2.75 then (2.75 - ipk) / 0.75 else 0
    sedang := if ipk ≤ 2 ∨ ipk ≥ 3.5 then 0
              else if ipk < 2.75 then (ipk - 2) / 0.75 else (3.5 - ipk) / 0.75
    tinggi := if ipk ≤ 3 then 0 else if ipk < 3.5 then (ipk - 3) / 0.5 else 1 }

/-- Source function `muAktif` (src/app.js lines 55–61): membership degrees
of an activity value, same shape with breakpoints 40/60/80. -/
def muAktif (a : ℚ) : MF :=
  { rendah := if a ≤ 40 then 1 else if a < 60 then (60 - a) / 20 else 0
    sedang := if a ≤ 40 ∨ a ≥ 80 then 0
              else if a < 60 then (a - 40) / 20 else (80 - a) / 20
    tinggi := if a ≤ 60 then 0 else if a < 80 then (a - 60) / 20 else 1 }

/-- One entry of the rule base: `{ ipk, aktif, hasil }`. -/
structure Rule where
  ipk : Kategori
  aktif : Kategori
  hasil : Kategori
deriving DecidableEq, Repr

/-- The fixed 9-rule base `rules` (src/app.js lines 64–74), in source order. -/
def rules : List Rule :=
  [ ⟨.tinggi, .tinggi, .tinggi⟩
  , ⟨.tinggi, .sedang, .tinggi⟩
  , ⟨.tinggi, .rendah, .sedang⟩
  , ⟨.sedang, .tinggi, .tinggi⟩
  , ⟨.sedang, .sedang, .sedang⟩
  , ⟨.sedang, .rendah, .rendah⟩
  , ⟨.rendah, .tinggi, .sedang⟩
  , ⟨.rendah, .sedang, .rendah⟩
  , ⟨.rendah, .rendah, .rendah⟩ ]

/-- One iteration of the inference loop (src/app.js lines 116–119):
`fire = min(keanggotaanIPK[rule.ipk], keanggotaanAktif[rule.aktif]);
a[rule.hasil] = max(a[rule.hasil], fire)`. -/
def step (keanggotaanIPK keanggotaanAktif : MF) (a : MF) (rule : Rule) : MF :=
  let fire := min (keanggotaanIPK.get rule.ipk) (keanggotaanAktif.get rule.aktif)
  a.set rule.hasil (max (a.get rule.hasil) fire)

/-- The inference loop run over an arbitrary rule list, starting from
`a = {rendah: 0, sedang: 0, tinggi: 0}`. -/
def aggregateWith (rs : List Rule) (keanggotaanIPK keanggotaanAktif : MF) : MF :=
  rs.foldl (step keanggotaanIPK keanggotaanAktif) ⟨0, 0, 0⟩

/-- The aggregated strengths `a` computed by the loop of `hitungFuzzy` over
`rules` in source order. -/
def aggregate (keanggotaanIPK keanggotaanAktif : MF) : MF :=
  aggregateWith rules keanggotaanIPK keanggotaanAktif

/-- The centroid table `z = { rendah: 20, sedang: 50, tinggi: 80 }`
(src/app.js line 121). -/
def z : MF := ⟨20, 50, 80⟩

/-- The unrounded crisp value `hasil = numerator / denominator`
(src/app.js lines 122–124) for aggregated strengths `a`. -/
def crisp (a : MF) : ℚ :=
  let numerator := a.rendah * z.rendah + a.sedang * z.sedang + a.tinggi * z.tinggi
  let denominator := a.rendah + a.sedang + a.tinggi
  numerator / denominator

/-- The rational denoted by `q.toFixed(2)` for the nonnegative values arising
here: round half up at the second decimal. -/
def roundTo2 (q : ℚ) : ℚ := (⌊q * 100 + 1 / 2⌋ : ℚ) / 100

/-- The result record `{ hasil, kategori }` returned by `hitungFuzzy`;
`hasil` is the rational denoted by the `hasil.toFixed(2)` string of the
source. -/
structure Hasil where
  hasil : ℚ
  kategori : String
deriving DecidableEq, Repr

/-- Defuzzification and labelling (src/app.js lines 120–128): the crisp
value, the label from the unrounded value
(rendah below 60, sedang below 80, tinggi otherwise), and the
rounded reported value. -/
def defuzz (a : MF) : Hasil :=
  let hasil := crisp a
  let kategori := if hasil < 60 then "Rendah" else if hasil < 80 then "Sedang" else "Tinggi"
  ⟨roundTo2 hasil, kategori⟩

/-- Source function `hitungFuzzy` (src/app.js lines 109–129):
fuzzification, min/max inference over `rules`, and defuzzification. -/
def hitungFuzzy (ipk aktif : ℚ) : Hasil :=
  defuzz (aggregate (muIPK ipk) (muAktif aktif))

/-- The defuzzification denominator `a.rendah + a.sedang + a.tinggi` reached
from the raw inputs. -/
def denomOf (ipk aktif : ℚ) : ℚ :=
  let a := aggregate (muIPK ipk) (muAktif aktif)
  a.rendah + a.sedang + a.tinggi

/-- The unrounded crisp score reached from the raw inputs (the local
`hasil` of the source before `toFixed`). -/
def scoreOf (ipk aktif : ℚ) : ℚ :=
  crisp (aggregate (muIPK ipk) (muAktif aktif))

/-- The falling-edge shape of the spec: 1 up to `a`, linearly decreasing to
0 at `b`, 0 beyond, written with saturation instead of conditionals.
Stated from the wording of the spec, to be compared with the conditional
chains of the source. -/
def specLow (a b x : ℚ) : ℚ := min 1 (max 0 ((b - x) / (b - a)))

/-- The rising-edge shape of the spec: 0 up to `a`, linearly increasing to
1 at `b`, 1 beyond. -/
def specHigh (a b x : ℚ) : ℚ := min 1 (max 0 ((x - a) / (b - a)))

/-- The triangular shape of the spec: 0 outside `(a, c)`, rising on `a`–`b`
and falling on `b`–`c`. -/
def specTri (a b c x : ℚ) : ℚ := max 0 (min ((x - a) / (b - a)) ((c - x) / (c - b)))

/-- The output categories, in the enumeration order of the spec. -/
def kategoriList : List Kategori := [.rendah, .sedang, .tinggi]

/-- The defuzzification formula of the spec, written as the spec states it:
`Σ(AggregatedStrength[c] × centroid[c]) / Σ(AggregatedStrength[c])` over the
three output categories.  Stated from the wording of the spec, to be
compared with the `numerator / denominator` expression of the source. -/
def specScore (a : MF) : ℚ :=
  (kategoriList.map (fun c => a.get c * z.get c)).sum /
    (kategoriList.map (fun c => a.get c)).sum

section

attribute [local semireducible] Rat.add Rat.sub Rat.mul Rat.inv Rat.ofScientific


/-- Unrolling the inference loop over the 9 rules in source order gives, for
each output category, the max of `0` and the three firing strengths of the
rules targeting it. -/
lemma aggregate_eq (k1 k2 : MF) :
    aggregate k1 k2 =
      ⟨ max (max (max 0 (min k1.sedang k2.rendah)) (min k1.rendah k2.sedang))
          (min k1.rendah k2.rendah),
        max (max (max 0 (min k1.tinggi k2.rendah)) (min k1.sedang k2.sedang))
          (min k1.rendah k2.tinggi),
        max (max (max 0 (min k1.tinggi k2.tinggi)) (min k1.tinggi k2.sedang))
          (min k1.sedang k2.tinggi) ⟩ := rfl

lemma max4_nonneg (a b c : ℚ) : 0 ≤ max (max (max 0 a) b) c :=
  le_max_of_le_left (le_max_of_le_left (le_max_left 0 a))

lemma le_max4_fst (a b c : ℚ) : a ≤ max (max (max 0 a) b) c :=
  le_max_of_le_left (le_max_of_le_left (le_max_right 0 a))

lemma le_max4_snd (a b c : ℚ) : b ≤ max (max (max 0 a) b) c :=
  le_max_of_le_left (le_max_right (max 0 a) b)

lemma le_max4_thd (a b c : ℚ) : c ≤ max (max (max 0 a) b) c :=
  le_max_right (max (max 0 a) b) c

/-- Every GPA value has a positive membership degree in at least one of the
three fuzzy sets (the shapes saturate at both ends and overlap). -/
lemma muIPK_pos (x : ℚ) :
    0 < (muIPK x).rendah ∨ 0 < (muIPK x).sedang ∨ 0 < (muIPK x).tinggi := by
  rcases lt_or_le x 2.75 with h | h
  · left
    show 0 < if x ≤ 2 then 1 else if x < 2.75 then (2.75 - x) / 0.75 else 0
    rcases le_or_lt x 2 with h1 | h1
    · rw [if_pos h1]; norm_num
    · rw [if_neg (not_le.mpr h1), if_pos h]
      exact div_pos (by linarith) (by norm_num)
  · rcases lt_or_le x 3.5 with h2 | h2
    · right; left
      show 0 < if x ≤ 2 ∨ x ≥ 3.5 then 0
          else if x < 2.75 then (x - 2) / 0.75 else (3.5 - x) / 0.75
      rw [if_neg (not_or.mpr ⟨not_le.mpr (by linarith), not_le.mpr h2⟩),
        if_neg (not_lt.mpr h)]
      exact div_pos (by linarith) (by norm_num)
    · right; right
      show 0 < if x ≤ 3 then 0 else if x < 3.5 then (x - 3) / 0.5 else 1
      rw [if_neg (not_le.mpr (by linarith)), if_neg (not_lt.mpr h2)]
      norm_num

/-- Every activity value has a positive membership degree in at least one of
the three fuzzy sets. -/
lemma muAktif_pos (x : ℚ) :
    0 < (muAktif x).rendah ∨ 0 < (muAktif x).sedang ∨ 0 < (muAktif x).tinggi := by
  rcases lt_or_le x 60 with h | h
  · left
    show 0 < if x ≤ 40 then 1 else if x < 60 then (60 - x) / 20 else 0
    rcases le_or_lt x 40 with h1 | h1
    · rw [if_pos h1]; norm_num
    · rw [if_neg (not_le.mpr h1), if_pos h]
      exact div_pos (by linarith) (by norm_num)
  · rcases lt_or_le x 80 with h2 | h2
    · right; left
      show 0 < if x ≤ 40 ∨ x ≥ 80 then 0
          else if x < 60 then (x - 40) / 20 else (80 - x) / 20
      rw [if_neg (not_or.mpr ⟨not_le.mpr (by linarith), not_le.mpr h2⟩),
        if_neg (not_lt.mpr h)]
      exact div_pos (by linarith) (by norm_num)
    · right; right
      show 0 < if x ≤ 60 then 0 else if x < 80 then (x - 60) / 20 else 1
      rw [if_neg (not_le.mpr (by linarith)), if_neg (not_lt.mpr h2)]
      norm_num

/-- Each aggregated strength is nonnegative. -/
lemma aggregate_nonneg (k1 k2 : MF) :
    0 ≤ (aggregate k1 k2).rendah ∧ 0 ≤ (aggregate k1 k2).sedang ∧
      0 ≤ (aggregate k1 k2).tinggi := by
  rw [aggregate_eq]
  exact ⟨max4_nonneg _ _ _, max4_nonneg _ _ _, max4_nonneg _ _ _⟩

/-- From one positive degree in each input vector, the rule joining the two
categories fires positively, so the aggregated strength of its output category is
positive. -/
lemma aggregate_pos (k1 k2 : MF)
    (h1 : 0 < k1.rendah ∨ 0 < k1.sedang ∨ 0 < k1.tinggi)
    (h2 : 0 < k2.rendah ∨ 0 < k2.sedang ∨ 0 < k2.tinggi) :
    0 < (aggregate k1 k2).rendah ∨ 0 < (aggregate k1 k2).sedang ∨
      0 < (aggregate k1 k2).tinggi := by
  rw [aggregate_eq]
  rcases h1 with ha | ha | ha <;> rcases h2 with hb | hb | hb
  · exact Or.inl (lt_of_lt_of_le (lt_min ha hb) (le_max4_thd _ _ _))
  · exact Or.inl (lt_of_lt_of_le (lt_min ha hb) (le_max4_snd _ _ _))
  · exact Or.inr (Or.inl (lt_of_lt_of_le (lt_min ha hb) (le_max4_thd _ _ _)))
  · exact Or.inl (lt_of_lt_of_le (lt_min ha hb) (le_max4_fst _ _ _))
  · exact Or.inr (Or.inl (lt_of_lt_of_le (lt_min ha hb) (le_max4_snd _ _ _)))
  · exact Or.inr (Or.inr (lt_of_lt_of_le (lt_min ha hb) (le_max4_thd _ _ _)))
  · exact Or.inr (Or.inl (lt_of_lt_of_le (lt_min ha hb) (le_max4_fst _ _ _)))
  · exact Or.inr (Or.inr (lt_of_lt_of_le (lt_min ha hb) (le_max4_snd _ _ _)))
  · exact Or.inr (Or.inr (lt_of_lt_of_le (lt_min ha hb) (le_max4_fst _ _ _)))

/-- A conditional chain `x ≤ p → 1 / x < q → interpolate / 0` equals the
clamped falling edge. -/
lemma lowShape_spec (p q d x : ℚ) (h0 : 0 < d) (hd : q - p = d) :
    (if x ≤ p then (1 : ℚ) else if x < q then (q - x) / d else 0)
      = min 1 (max 0 ((q - x) / (q - p))) := by
  subst hd
  rcases le_or_lt x p with h1 | h1
  · rw [if_pos h1, max_eq_right (le_of_lt (div_pos (by linarith) h0)),
      min_eq_left ((one_le_div h0).mpr (by linarith))]
  · rw [if_neg (not_le.mpr h1)]
    rcases lt_or_le x q with h2 | h2
    · rw [if_pos h2, max_eq_right (div_nonneg (by linarith) h0.le),
        min_eq_right ((div_le_one h0).mpr (by linarith))]
    · rw [if_neg (not_lt.mpr h2),
        max_eq_left (div_nonpos_iff.mpr (Or.inr ⟨by linarith, by linarith⟩)),
        min_eq_right (by norm_num)]

/-- A conditional chain `x ≤ p → 0 / x < q → interpolate / 1` equals the
clamped rising edge. -/
lemma highShape_spec (p q d x : ℚ) (h0 : 0 < d) (hd : q - p = d) :
    (if x ≤ p then (0 : ℚ) else if x < q then (x - p) / d else 1)
      = min 1 (max 0 ((x - p) / (q - p))) := by
  subst hd
  rcases le_or_lt x p with h1 | h1
  · rw [if_pos h1,
      max_eq_left (div_nonpos_iff.mpr (Or.inr ⟨by linarith, by linarith⟩)),
      min_eq_right (by norm_num)]
  · rw [if_neg (not_le.mpr h1)]
    rcases lt_or_le x q with h2 | h2
    · rw [if_pos h2, max_eq_right (div_nonneg (by linarith) h0.le),
        min_eq_right ((div_le_one h0).mpr (by linarith))]
    · rw [if_neg (not_lt.mpr h2), max_eq_right (le_of_lt (div_pos (by linarith) h0)),
        min_eq_left ((one_le_div h0).mpr (by linarith))]

/-- A conditional chain `x ≤ p or x ≥ r → 0 / x < q → rise / fall` equals
the clamped triangle (for the symmetric triangles used here). -/
lemma triShape_spec (p q r d x : ℚ) (h0 : 0 < d) (h1 : q - p = d) (h2 : r - q = d) :
    (if x ≤ p ∨ x ≥ r then (0 : ℚ) else if x < q then (x - p) / d else (r - x) / d)
      = max 0 (min ((x - p) / (q - p)) ((r - x) / (r - q))) := by
  rw [h1, h2]
  rcases le_or_lt x p with h3 | h3
  · rw [if_pos (Or.inl h3),
      max_eq_left (le_trans (min_le_left _ _)
        (div_nonpos_iff.mpr (Or.inr ⟨by linarith, by linarith⟩)))]
  · rcases le_or_lt r x with h4 | h4
    · rw [if_pos (Or.inr h4),
        max_eq_left (le_trans (min_le_right _ _)
          (div_nonpos_iff.mpr (Or.inr ⟨by linarith, by linarith⟩)))]
    · rw [if_neg (not_or.mpr ⟨not_le.mpr h3, not_le.mpr h4⟩)]
      rcases lt_or_le x q with h5 | h5
      · rw [if_pos h5, min_eq_left ((div_le_div_iff_of_pos_right h0).mpr (by linarith)),
          max_eq_right (div_nonneg (by linarith) h0.le)]
      · rw [if_neg (not_lt.mpr h5), min_eq_right ((div_le_div_iff_of_pos_right h0).mpr (by linarith)),
          max_eq_right (div_nonneg (by linarith) h0.le)]

/-- Refinement: `muIPK` computes exactly the three clamped shapes of the spec with
breakpoints 2.0 / 2.75 / 3.0 / 3.5. -/
lemma muIPK_spec (x : ℚ) :
    muIPK x = ⟨specLow 2 2.75 x, specTri 2 2.75 3.5 x, specHigh 3 3.5 x⟩ := by
  have hr : (muIPK x).rendah = specLow 2 2.75 x :=
    lowShape_spec 2 2.75 0.75 x (by norm_num) (by norm_num)
  have hs : (muIPK x).sedang = specTri 2 2.75 3.5 x :=
    triShape_spec 2 2.75 3.5 0.75 x (by norm_num) (by norm_num) (by norm_num)
  have ht : (muIPK x).tinggi = specHigh 3 3.5 x :=
    highShape_spec 3 3.5 0.5 x (by norm_num) (by norm_num)
  cases hm : muIPK x with
  | mk r s t =>
    rw [hm] at hr hs ht
    simp only [MF.mk.injEq]
    exact ⟨hr, hs, ht⟩

/-- Refinement: `muAktif` computes exactly the three clamped shapes of the spec with
breakpoints 40 / 60 / 80. -/
lemma muAktif_spec (x : ℚ) :
    muAktif x = ⟨specLow 40 60 x, specTri 40 60 80 x, specHigh 60 80 x⟩ := by
  have hr : (muAktif x).rendah = specLow 40 60 x :=
    lowShape_spec 40 60 20 x (by norm_num) (by norm_num)
  have hs : (muAktif x).sedang = specTri 40 60 80 x :=
    triShape_spec 40 60 80 20 x (by norm_num) (by norm_num) (by norm_num)
  have ht : (muAktif x).tinggi = specHigh 60 80 x :=
    highShape_spec 60 80 20 x (by norm_num) (by norm_num)
  cases hm : muAktif x with
  | mk r s t =>
    rw [hm] at hr hs ht
    simp only [MF.mk.injEq]
    exact ⟨hr, hs, ht⟩

/-- Each branch of a clamped falling edge lies in `[0, 1]`. -/
lemma specLow_mem (a b x : ℚ) (_h : a < b) : 0 ≤ specLow a b x ∧ specLow a b x ≤ 1 := by
  unfold specLow
  exact ⟨le_min (by norm_num) (le_max_left 0 _), min_le_left 1 _⟩

/-- Each branch of a clamped rising edge lies in `[0, 1]`. -/
lemma specHigh_mem (a b x : ℚ) (_h : a < b) : 0 ≤ specHigh a b x ∧ specHigh a b x ≤ 1 := by
  unfold specHigh
  exact ⟨le_min (by norm_num) (le_max_left 0 _), min_le_left 1 _⟩

/-- The clamped triangle lies in `[0, 1]`. -/
lemma specTri_mem (a b c x : ℚ) (hab : a < b) (hbc : b < c) :
    0 ≤ specTri a b c x ∧ specTri a b c x ≤ 1 := by
  unfold specTri
  refine ⟨le_max_left 0 _, max_le (by norm_num) ?_⟩
  rcases le_or_lt x b with h | h
  · exact le_trans (min_le_left _ _) ((div_le_one (by linarith)).mpr (by linarith))
  · exact le_trans (min_le_right _ _) ((div_le_one (by linarith)).mpr (by linarith))

/-- A positive falling edge forces `x < b`. -/
lemma specLow_pos_lt {a b x : ℚ} (hab : a < b) (h : 0 < specLow a b x) : x < b := by
  by_contra hx
  rw [specLow, max_eq_left (div_nonpos_iff.mpr (Or.inr ⟨by linarith [not_lt.mp hx], by linarith⟩)),
    min_eq_right (by norm_num)] at h
  exact lt_irrefl 0 h

/-- A positive rising edge forces `a < x`. -/
lemma specHigh_pos_gt {a b x : ℚ} (hab : a < b) (h : 0 < specHigh a b x) : a < x := by
  by_contra hx
  rw [specHigh, max_eq_left (div_nonpos_iff.mpr (Or.inr ⟨by linarith [not_lt.mp hx], by linarith⟩)),
    min_eq_right (by norm_num)] at h
  exact lt_irrefl 0 h

/-- For GPA at most 2 the membership vector is saturated at `{1, 0, 0}`. -/
lemma muIPK_low_sat {x : ℚ} (h : x ≤ 2) : muIPK x = ⟨1, 0, 0⟩ := by
  simp only [muIPK, MF.mk.injEq]
  refine ⟨?_, ?_, ?_⟩
  · rw [if_pos h]
  · rw [if_pos (Or.inl h)]
  · rw [if_pos (by linarith : x ≤ 3)]

/-- For GPA at least 3.5 the membership vector is saturated at `{0, 0, 1}`. -/
lemma muIPK_high_sat {x : ℚ} (h : 3.5 ≤ x) : muIPK x = ⟨0, 0, 1⟩ := by
  have h2 : ¬ x ≤ 2 := not_le.mpr (by nlinarith [h])
  simp only [muIPK, MF.mk.injEq]
  refine ⟨?_, ?_, ?_⟩
  · rw [if_neg h2, if_neg (not_lt.mpr (by nlinarith [h]))]
  · rw [if_pos (Or.inr h)]
  · rw [if_neg (not_le.mpr (by nlinarith [h])), if_neg (not_lt.mpr h)]

/-- For activity at most 40 the membership vector is saturated at `{1, 0, 0}`. -/
lemma muAktif_low_sat {x : ℚ} (h : x ≤ 40) : muAktif x = ⟨1, 0, 0⟩ := by
  simp only [muAktif, MF.mk.injEq]
  refine ⟨?_, ?_, ?_⟩
  · rw [if_pos h]
  · rw [if_pos (Or.inl h)]
  · rw [if_pos (by linarith : x ≤ 60)]

/-- For activity at least 80 the membership vector is saturated at `{0, 0, 1}`. -/
lemma muAktif_high_sat {x : ℚ} (h : 80 ≤ x) : muAktif x = ⟨0, 0, 1⟩ := by
  simp only [muAktif, MF.mk.injEq]
  refine ⟨?_, ?_, ?_⟩
  · rw [if_neg (not_le.mpr (by linarith)), if_neg (not_lt.mpr (by linarith))]
  · rw [if_pos (Or.inr h)]
  · rw [if_neg (not_le.mpr (by linarith)), if_neg (not_lt.mpr h)]

/-- Clamping GPA to `[0, 4]` does not change its membership vector. -/
lemma muIPK_clamp (x : ℚ) : muIPK (max 0 (min x 4)) = muIPK x := by
  rcases le_or_lt x 0 with h | h
  · have hc : max 0 (min x 4) = 0 := by
      rw [min_eq_left (by linarith), max_eq_left h]
    rw [hc, muIPK_low_sat (by norm_num : (0:ℚ) ≤ 2), muIPK_low_sat (by linarith)]
  · rcases le_or_lt 4 x with h4 | h4
    · have hc : max 0 (min x 4) = 4 := by
        rw [min_eq_right h4, max_eq_right (by norm_num)]
      rw [hc, muIPK_high_sat (by norm_num : (3.5:ℚ) ≤ 4), muIPK_high_sat (by nlinarith [h4])]
    · have hc : max 0 (min x 4) = x := by
        rw [min_eq_left h4.le, max_eq_right h.le]
      rw [hc]

/-- Clamping activity to `[0, 100]` does not change its membership vector. -/
lemma muAktif_clamp (x : ℚ) : muAktif (max 0 (min x 100)) = muAktif x := by
  rcases le_or_lt x 0 with h | h
  · have hc : max 0 (min x 100) = 0 := by
      rw [min_eq_left (by linarith), max_eq_left h]
    rw [hc, muAktif_low_sat (by norm_num : (0:ℚ) ≤ 40), muAktif_low_sat (by linarith)]
  · rcases le_or_lt 100 x with h4 | h4
    · have hc : max 0 (min x 100) = 100 := by
        rw [min_eq_right h4, max_eq_right (by norm_num)]
      rw [hc, muAktif_high_sat (by norm_num : (80:ℚ) ≤ 100), muAktif_high_sat (by linarith)]
    · have hc : max 0 (min x 100) = x := by
        rw [min_eq_left h4.le, max_eq_right h.le]
      rw [hc]

/-- The defuzzification denominator is strictly positive for every pair of
rational inputs: division by zero is unreachable in `hitungFuzzy`. -/
lemma denom_pos (ipk aktif : ℚ) : 0 < denomOf ipk aktif := by
  have hp := aggregate_pos (muIPK ipk) (muAktif aktif) (muIPK_pos ipk) (muAktif_pos aktif)
  have hn := aggregate_nonneg (muIPK ipk) (muAktif aktif)
  show 0 < (aggregate (muIPK ipk) (muAktif aktif)).rendah +
      (aggregate (muIPK ipk) (muAktif aktif)).sedang +
      (aggregate (muIPK ipk) (muAktif aktif)).tinggi
  rcases hp with h | h | h <;> rcases hn with ⟨n1, ⟨n2, n3⟩⟩ <;> linarith

lemma defuzz_hasil (a : MF) : (defuzz a).hasil = roundTo2 (crisp a) := rfl

lemma defuzz_kategori (a : MF) :
    (defuzz a).kategori =
      if crisp a < 60 then "Rendah" else if crisp a < 80 then "Sedang" else "Tinggi" := rfl

lemma scoreOf_eq (ipk aktif : ℚ) :
    scoreOf ipk aktif = crisp (aggregate (muIPK ipk) (muAktif aktif)) := rfl

lemma crisp_eq (a : MF) :
    crisp a = (a.rendah * 20 + a.sedang * 50 + a.tinggi * 80) /
      (a.rendah + a.sedang + a.tinggi) := rfl

/-- With a positive denominator the crisp value is at least the smallest
centroid. -/
lemma crisp_ge (a : MF) (_hr : 0 ≤ a.rendah) (hs : 0 ≤ a.sedang) (ht : 0 ≤ a.tinggi)
    (hsum : 0 < a.rendah + a.sedang + a.tinggi) : 20 ≤ crisp a := by
  rw [crisp_eq, le_div_iff₀ hsum]
  nlinarith

/-- With a positive denominator the crisp value is at most the largest
centroid. -/
lemma crisp_le (a : MF) (hr : 0 ≤ a.rendah) (hs : 0 ≤ a.sedang) (_ht : 0 ≤ a.tinggi)
    (hsum : 0 < a.rendah + a.sedang + a.tinggi) : crisp a ≤ 80 := by
  rw [crisp_eq, div_le_iff₀ hsum]
  nlinarith

/-- The crisp value hits the top centroid exactly when the `rendah` and
`sedang` strengths vanish. -/
lemma crisp_eq_80_iff (a : MF) (hr : 0 ≤ a.rendah) (hs : 0 ≤ a.sedang)
    (hsum : 0 < a.rendah + a.sedang + a.tinggi) :
    crisp a = 80 ↔ a.rendah = 0 ∧ a.sedang = 0 := by
  rw [crisp_eq, div_eq_iff (ne_of_gt hsum)]
  constructor
  · intro h
    constructor <;> nlinarith
  · rintro ⟨h1, h2⟩
    rw [h1, h2]
    ring

/-- The label is `"Rendah"` exactly when the unrounded crisp value is below
60. -/
lemma kategori_rendah_iff (a : MF) : (defuzz a).kategori = "Rendah" ↔ crisp a < 60 := by
  rw [defuzz_kategori]
  split_ifs with h1 h2
  · exact iff_of_true rfl h1
  · exact iff_of_false (by decide) h1
  · exact iff_of_false (by decide) h1

/-- The label is `"Sedang"` exactly when the unrounded crisp value is in
`[60, 80)`. -/
lemma kategori_sedang_iff (a : MF) :
    (defuzz a).kategori = "Sedang" ↔ 60 ≤ crisp a ∧ crisp a < 80 := by
  rw [defuzz_kategori]
  split_ifs with h1 h2
  · exact iff_of_false (by decide) (fun hc => absurd h1 (not_lt.mpr hc.1))
  · exact iff_of_true rfl ⟨not_lt.mp h1, h2⟩
  · exact iff_of_false (by decide) (fun hc => h2 hc.2)

/-- The label is `"Tinggi"` exactly when the unrounded crisp value is at
least 80. -/
lemma kategori_tinggi_iff (a : MF) : (defuzz a).kategori = "Tinggi" ↔ 80 ≤ crisp a := by
  rw [defuzz_kategori]
  split_ifs with h1 h2
  · exact iff_of_false (by decide) (not_le.mpr (h1.trans (by norm_num)))
  · exact iff_of_false (by decide) (not_le.mpr h2)
  · exact iff_of_true rfl (not_lt.mp h2)

/-- Two loop iterations commute: they either update different fields of `a`,
or take the max of the same field with two fires, which is
order-insensitive. -/
lemma step_comm (k1 k2 : MF) (a : MF) (r1 r2 : Rule) :
    step k1 k2 (step k1 k2 a r1) r2 = step k1 k2 (step k1 k2 a r2) r1 := by
  obtain ⟨i1, a1, h1⟩ := r1
  obtain ⟨i2, a2, h2⟩ := r2
  cases h1 <;> cases h2 <;>
    simp [step, MF.set, MF.get, MF.mk.injEq, max_assoc, max_comm, max_left_comm]

/-- Folding the inference loop over any permutation of the rule base yields
the same aggregated strengths. -/
lemma aggregateWith_perm (rs : List Rule) (h : List.Perm rs rules) (k1 k2 : MF) :
    aggregateWith rs k1 k2 = aggregate k1 k2 := by
  haveI : RightCommutative (step k1 k2) := ⟨step_comm k1 k2⟩
  exact List.Perm.foldl_eq h (⟨0, 0, 0⟩ : MF)

lemma hitungFuzzy_eq (ipk aktif : ℚ) :
    hitungFuzzy ipk aktif = defuzz (aggregate (muIPK ipk) (muAktif aktif)) := rfl

/-- The summation formula of the spec and the unrolled
numerator/denominator expression of the source agree. -/
lemma specScore_eq (a : MF) : specScore a = crisp a := by
  simp only [specScore, kategoriList, List.map_cons, List.map_nil, List.sum_cons,
    List.sum_nil, MF.get, crisp_eq, z]
  congr 1 <;> ring

/-- C2: `muIPK` returns exactly the piecewise-linear membership vector of
the spec (falling edge 2.0→2.75 for low, triangle 2.0/2.75/3.5 for medium,
rising edge 3.0→3.5 for high), `muAktif` the analogous vector with
breakpoints 40/60/80, and the stated boundary values hold:
`muIPK(2.0).low = 1`, `muIPK(2.75).low = 0`, `muIPK(2.75).medium = 1`. -/
theorem c2_membership_functions_match_spec :
    (∀ x : ℚ, muIPK x = ⟨specLow 2 2.75 x, specTri 2 2.75 3.5 x, specHigh 3 3.5 x⟩) ∧
    (∀ x : ℚ, muAktif x = ⟨specLow 40 60 x, specTri 40 60 80 x, specHigh 60 80 x⟩) ∧
    (muIPK 2).rendah = 1 ∧ (muIPK 2.75).rendah = 0 ∧ (muIPK 2.75).sedang = 1 :=
  ⟨muIPK_spec, muAktif_spec, by decide, by decide, by decide⟩

/-- C7: every membership degree produced by `muIPK` and `muAktif` lies in
`[0, 1]`, and the low and high degrees of one vector are never both
positive (so at most two of the three degrees are simultaneously
non-zero). -/
theorem c7_membership_degrees_in_unit_interval :
    ∀ x : ℚ,
      (0 ≤ (muIPK x).rendah ∧ (muIPK x).rendah ≤ 1) ∧
      (0 ≤ (muIPK x).sedang ∧ (muIPK x).sedang ≤ 1) ∧
      (0 ≤ (muIPK x).tinggi ∧ (muIPK x).tinggi ≤ 1) ∧
      (0 ≤ (muAktif x).rendah ∧ (muAktif x).rendah ≤ 1) ∧
      (0 ≤ (muAktif x).sedang ∧ (muAktif x).sedang ≤ 1) ∧
      (0 ≤ (muAktif x).tinggi ∧ (muAktif x).tinggi ≤ 1) ∧
      ¬(0 < (muIPK x).rendah ∧ 0 < (muIPK x).tinggi) ∧
      ¬(0 < (muAktif x).rendah ∧ 0 < (muAktif x).tinggi) := by
  intro x
  simp only [muIPK_spec x, muAktif_spec x]
  refine ⟨specLow_mem 2 2.75 x (by norm_num), specTri_mem 2 2.75 3.5 x (by norm_num) (by norm_num),
    specHigh_mem 3 3.5 x (by norm_num), specLow_mem 40 60 x (by norm_num),
    specTri_mem 40 60 80 x (by norm_num) (by norm_num), specHigh_mem 60 80 x (by norm_num),
    ?_, ?_⟩
  · rintro ⟨hl, hh⟩
    have h1 := specLow_pos_lt (by norm_num : (2:ℚ) < 2.75) hl
    have h2 := specHigh_pos_gt (by norm_num : (3:ℚ) < 3.5) hh
    nlinarith
  · rintro ⟨hl, hh⟩
    have h1 := specLow_pos_lt (by norm_num : (40:ℚ) < 60) hl
    have h2 := specHigh_pos_gt (by norm_num : (60:ℚ) < 80) hh
    linarith

/-- Witness for C7 at the concrete GPA/activity value 3.2. -/
theorem c7_membership_degrees_in_unit_interval_witness :
    (0 ≤ (muIPK 3.2).rendah ∧ (muIPK 3.2).rendah ≤ 1) ∧
      ¬(0 < (muIPK 3.2).rendah ∧ 0 < (muIPK 3.2).tinggi) :=
  ⟨(c7_membership_degrees_in_unit_interval 3.2).1,
    (c7_membership_degrees_in_unit_interval 3.2).2.2.2.2.2.2.1⟩

/-- C8: for every pair of rational inputs each input vector has a positive
degree, some aggregated output strength is strictly positive, and the
defuzzification denominator is positive (hence non-zero): the
division-by-zero case of `hitungFuzzy` is unreachable. -/
theorem c8_denominator_always_positive :
    ∀ ipk aktif : ℚ,
      (0 < (muIPK ipk).rendah ∨ 0 < (muIPK ipk).sedang ∨ 0 < (muIPK ipk).tinggi) ∧
      (0 < (muAktif aktif).rendah ∨ 0 < (muAktif aktif).sedang ∨
        0 < (muAktif aktif).tinggi) ∧
      (0 < (aggregate (muIPK ipk) (muAktif aktif)).rendah ∨
        0 < (aggregate (muIPK ipk) (muAktif aktif)).sedang ∨
        0 < (aggregate (muIPK ipk) (muAktif aktif)).tinggi) ∧
      0 < denomOf ipk aktif ∧ denomOf ipk aktif ≠ 0 :=
  fun ipk aktif =>
    ⟨muIPK_pos ipk, muAktif_pos aktif,
      aggregate_pos _ _ (muIPK_pos ipk) (muAktif_pos aktif),
      denom_pos ipk aktif, ne_of_gt (denom_pos ipk aktif)⟩

/-- C6: running the min/max inference loop over any permutation of the
9-rule base produces the same aggregated strengths as the source order, for
every pair of membership vectors. -/
theorem c6_rule_order_irrelevant :
    ∀ rs : List Rule, List.Perm rs rules →
      ∀ k1 k2 : MF, aggregateWith rs k1 k2 = aggregate k1 k2 :=
  fun rs h k1 k2 => aggregateWith_perm rs h k1 k2

/-- Witness for C6 at the reversed rule list and concrete membership
vectors. -/
theorem c6_rule_order_irrelevant_witness :
    aggregateWith rules.reverse ⟨1, 0, 0⟩ ⟨0, 1, 0⟩ = aggregate ⟨1, 0, 0⟩ ⟨0, 1, 0⟩ :=
  c6_rule_order_irrelevant rules.reverse (List.reverse_perm rules) ⟨1, 0, 0⟩ ⟨0, 1, 0⟩

/-- C3: when the denominator is non-zero, the reported score is the
weighted-average formula of the spec rounded to two decimals, and the label is
`"Rendah"` iff the unrounded score is below 60, `"Sedang"` iff it is in
`[60, 80)`, and `"Tinggi"` iff it is at least 80. -/
theorem c3_defuzzification_formula :
    ∀ ipk aktif : ℚ, denomOf ipk aktif ≠ 0 →
      (hitungFuzzy ipk aktif).hasil =
        roundTo2 (specScore (aggregate (muIPK ipk) (muAktif aktif))) ∧
      ((hitungFuzzy ipk aktif).kategori = "Rendah" ↔
        specScore (aggregate (muIPK ipk) (muAktif aktif)) < 60) ∧
      ((hitungFuzzy ipk aktif).kategori = "Sedang" ↔
        60 ≤ specScore (aggregate (muIPK ipk) (muAktif aktif)) ∧
          specScore (aggregate (muIPK ipk) (muAktif aktif)) < 80) ∧
      ((hitungFuzzy ipk aktif).kategori = "Tinggi" ↔
        80 ≤ specScore (aggregate (muIPK ipk) (muAktif aktif))) := by
  intro ipk aktif _h
  rw [specScore_eq, hitungFuzzy_eq]
  exact ⟨defuzz_hasil _, kategori_rendah_iff _, kategori_sedang_iff _, kategori_tinggi_iff _⟩

/-- Witness for C3 at `(3, 70)`, where the denominator is `1`. -/
theorem c3_defuzzification_formula_witness :
    denomOf 3 70 ≠ 0 ∧
      (hitungFuzzy 3 70).hasil = roundTo2 (specScore (aggregate (muIPK 3) (muAktif 70))) :=
  ⟨by decide, (c3_defuzzification_formula 3 70 (by decide)).1⟩

/-- C4: at the extreme inputs the aggregated strengths are pure and the
scores are exactly the corresponding centroid constants:
`hitungFuzzy 4 100` gives aggregated `{0, 0, 1}`, score 80, label
`"Tinggi"`; `hitungFuzzy 0 0` gives aggregated `{1, 0, 0}`, score 20,
label `"Rendah"`. -/
theorem c4_extreme_inputs :
    aggregate (muIPK 4) (muAktif 100) = ⟨0, 0, 1⟩ ∧ scoreOf 4 100 = z.tinggi ∧
      hitungFuzzy 4 100 = ⟨80, "Tinggi"⟩ ∧
      aggregate (muIPK 0) (muAktif 0) = ⟨1, 0, 0⟩ ∧ scoreOf 0 0 = z.rendah ∧
      hitungFuzzy 0 0 = ⟨20, "Rendah"⟩ :=
  ⟨by decide, by decide, by decide, by decide, by decide, by decide⟩

/-- C9: the unrounded crisp score always lies in `[20, 80]` (the range of
the centroid constants), and the label is `"Tinggi"` exactly when the score
is exactly 80, which happens exactly when the aggregated `rendah` and
`sedang` strengths are 0 and the aggregated `tinggi` strength is
positive. -/
theorem c9_score_range_and_top_label :
    ∀ ipk aktif : ℚ,
      20 ≤ scoreOf ipk aktif ∧ scoreOf ipk aktif ≤ 80 ∧
      ((hitungFuzzy ipk aktif).kategori = "Tinggi" ↔ scoreOf ipk aktif = 80) ∧
      (scoreOf ipk aktif = 80 ↔
        (aggregate (muIPK ipk) (muAktif aktif)).rendah = 0 ∧
          (aggregate (muIPK ipk) (muAktif aktif)).sedang = 0 ∧
          0 < (aggregate (muIPK ipk) (muAktif aktif)).tinggi) := by
  intro ipk aktif
  obtain ⟨n1, n2, n3⟩ := aggregate_nonneg (muIPK ipk) (muAktif aktif)
  have hsum : 0 < (aggregate (muIPK ipk) (muAktif aktif)).rendah +
      (aggregate (muIPK ipk) (muAktif aktif)).sedang +
      (aggregate (muIPK ipk) (muAktif aktif)).tinggi := denom_pos ipk aktif
  have hle := crisp_le _ n1 n2 n3 hsum
  refine ⟨crisp_ge _ n1 n2 n3 hsum, hle, ?_, ?_⟩
  · rw [hitungFuzzy_eq, kategori_tinggi_iff, scoreOf_eq]
    exact ⟨fun h => le_antisymm hle h, fun h => h.ge⟩
  · rw [scoreOf_eq, crisp_eq_80_iff _ n1 n2 hsum]
    constructor
    · rintro ⟨h1, h2⟩
      refine ⟨h1, h2, ?_⟩
      rw [h1, h2] at hsum
      linarith
    · rintro ⟨h1, h2, _⟩
      exact ⟨h1, h2⟩

/-- Witness for C9 at the concrete input pair `(4, 100)`. -/
theorem c9_score_range_and_top_label_witness :
    20 ≤ scoreOf 4 100 ∧ scoreOf 4 100 ≤ 80 ∧
      ((hitungFuzzy 4 100).kategori = "Tinggi" ↔ scoreOf 4 100 = 80) :=
  ⟨(c9_score_range_and_top_label 4 100).1, (c9_score_range_and_top_label 4 100).2.1,
    (c9_score_range_and_top_label 4 100).2.2.1⟩

/-- C10: `hitungFuzzy` is constant in GPA on the saturated regions
`ipk ≤ 2` and `ipk ≥ 3.5`, constant in activity on `aktif ≤ 40` and
`aktif ≥ 80`, and therefore equal to its value at the input pair clamped
to `[0, 4] × [0, 100]`. -/
theorem c10_saturation_and_clamping :
    (∀ i1 i2 aktif : ℚ, i1 ≤ 2 → i2 ≤ 2 → hitungFuzzy i1 aktif = hitungFuzzy i2 aktif) ∧
    (∀ i1 i2 aktif : ℚ, 3.5 ≤ i1 → 3.5 ≤ i2 →
      hitungFuzzy i1 aktif = hitungFuzzy i2 aktif) ∧
    (∀ ipk a1 a2 : ℚ, a1 ≤ 40 → a2 ≤ 40 → hitungFuzzy ipk a1 = hitungFuzzy ipk a2) ∧
    (∀ ipk a1 a2 : ℚ, 80 ≤ a1 → 80 ≤ a2 → hitungFuzzy ipk a1 = hitungFuzzy ipk a2) ∧
    (∀ ipk aktif : ℚ,
      hitungFuzzy ipk aktif = hitungFuzzy (max 0 (min ipk 4)) (max 0 (min aktif 100))) := by
  refine ⟨?_, ?_, ?_, ?_, ?_⟩
  · intro i1 i2 aktif h1 h2
    rw [hitungFuzzy_eq, hitungFuzzy_eq, muIPK_low_sat h1, muIPK_low_sat h2]
  · intro i1 i2 aktif h1 h2
    rw [hitungFuzzy_eq, hitungFuzzy_eq, muIPK_high_sat h1, muIPK_high_sat h2]
  · intro ipk a1 a2 h1 h2
    rw [hitungFuzzy_eq, hitungFuzzy_eq, muAktif_low_sat h1, muAktif_low_sat h2]
  · intro ipk a1 a2 h1 h2
    rw [hitungFuzzy_eq, hitungFuzzy_eq, muAktif_high_sat h1, muAktif_high_sat h2]
  · intro ipk aktif
    rw [hitungFuzzy_eq, hitungFuzzy_eq, muIPK_clamp, muAktif_clamp]

/-- Witness for C10 at concrete saturated and out-of-domain inputs. -/
theorem c10_saturation_and_clamping_witness :
    hitungFuzzy (-1) 50 = hitungFuzzy 0 50 ∧ hitungFuzzy 5 60 = hitungFuzzy 4 60 ∧
      hitungFuzzy 1 30 = hitungFuzzy 1 40 ∧ hitungFuzzy 1 90 = hitungFuzzy 1 80 ∧
      hitungFuzzy 4.5 110 = hitungFuzzy (max 0 (min 4.5 4)) (max 0 (min 110 100)) :=
  ⟨c10_saturation_and_clamping.1 (-1) 0 50 (by decide) (by decide),
   c10_saturation_and_clamping.2.1 5 4 60 (by decide) (by decide),
   c10_saturation_and_clamping.2.2.1 1 30 40 (by decide) (by decide),
   c10_saturation_and_clamping.2.2.2.1 1 90 80 (by decide) (by decide),
   c10_saturation_and_clamping.2.2.2.2 4.5 110⟩

/-- C1 (supporting theorem): the source defines no UndefinedDefuzzification
error anywhere — `hitungFuzzy` unconditionally returns a plain
score/label record whose label is one of the three category strings — and
over exact arithmetic the all-zero aggregated case it should guard is
unreachable (the denominator is strictly positive for every input pair). -/
theorem c1_no_undefined_defuzzification_error :
    ∀ ipk aktif : ℚ, 0 < denomOf ipk aktif ∧
      ((hitungFuzzy ipk aktif).kategori = "Rendah" ∨
        (hitungFuzzy ipk aktif).kategori = "Sedang" ∨
        (hitungFuzzy ipk aktif).kategori = "Tinggi") := by
  intro ipk aktif
  refine ⟨denom_pos ipk aktif, ?_⟩
  rw [hitungFuzzy_eq, defuzz_kategori]
  split_ifs
  · exact Or.inl rfl
  · exact Or.inr (Or.inl rfl)
  · exact Or.inr (Or.inr rfl)

/-- C5 (supporting theorem): `hitungFuzzy` performs no input validation at
all: even for inputs far outside the nominal domains it computes and
returns an ordinary result (the values the source produces at `±Infinity`,
where the membership shapes saturate, match these). -/
theorem c5_no_input_validation :
    hitungFuzzy 1000000 1000000 = ⟨80, "Tinggi"⟩ ∧
      hitungFuzzy (-1000000) (-1000000) = ⟨20, "Rendah"⟩ ∧
      hitungFuzzy 1000000 (-1000000) = ⟨50, "Rendah"⟩ :=
  ⟨by decide, by decide, by decide⟩

end
